import Mathlib

/-!
Shallow embedding of the RAG application's ingestion/retrieval core
(`src/ingestion.py`, `src/retrieval.py`, `webhook.py`) together with proofs
of the specification's testable properties.

Modelling conventions:
* A ChromaDB collection (for the single configured collection name) is
  `CollectionState := Option (List Chunk)`; `none` means the collection does
  not exist on disk.
* Python exceptions are `Except String`; a function that can both mutate the
  store and raise returns `CollectionState × Except String …` so that the
  store state is observable on the error path as well.
* External collaborators (the text splitter, the embedding provider, the
  LLM, the similarity scoring of the index) are abstracted as function
  parameters; everything written in the repository itself is translated
  directly from the Python source.
-/

namespace Rag

/-- Document metadata; only the keys used by the contact-scoped filter are
modelled (`hs_object_id` on every CRM record, `associated_contact_id` on
deals). Absent keys are `none`. -/
structure Metadata where
  hs_object_id : Option String
  associated_contact_id : Option String
deriving DecidableEq, Repr

/-- A LangChain `Document`: page content plus metadata. Chunks produced by
the splitter have the same shape (they inherit the parent metadata). -/
structure Document where
  content : String
  metadata : Metadata
deriving DecidableEq, Repr

/-- A chunk is a Document produced by the text splitter. -/
abbrev Chunk := Document

/-- State of the single configured Chroma collection: `none` when the
collection does not exist. -/
abbrev CollectionState := Option (List Chunk)

/-- Python whitespace characters recognised by `str.strip()`. -/
def pyIsSpace (c : Char) : Bool :=
  c == ' ' || c == '\t' || c == '\n' || c == '\r' ||
    c == Char.ofNat 11 || c == Char.ofNat 12

/-- Python `s.strip()`: remove leading and trailing whitespace. -/
def pyStrip (s : String) : String :=
  String.mk (((s.data.dropWhile pyIsSpace).reverse.dropWhile pyIsSpace).reverse)

/-- Config `TOP_K` (src/config.py, default 10). -/
def TOP_K : Nat := 10

/-- The metadata filter built by `create_contact_scoped_retriever`:
Chroma's `{"$or": [{"hs_object_id": cid}, {"associated_contact_id": cid}]}`
matches a chunk whose metadata has either key equal to `cid`. -/
def matchesContactFilter (cid : String) (m : Metadata) : Bool :=
  m.hs_object_id == some cid || m.associated_contact_id == some cid

/-- A vector-store retriever as configured through `as_retriever`'s
`search_kwargs`: the number of results `k` and the metadata filter. -/
structure Retriever where
  k : Nat
  flt : Metadata → Bool

/-- Translation of `create_contact_scoped_retriever(vectorstore, contact_id, k)`:
`search_kwargs = {"k": k or TOP_K, "filter": {"$or": [...]}}`. Python's
`k or TOP_K` treats `None` and `0` as falsy. -/
def create_contact_scoped_retriever (contact_id : String) (k : Option Nat) : Retriever :=
  { k := match k with
      | none => TOP_K
      | some 0 => TOP_K
      | some (n + 1) => n + 1,
    flt := matchesContactFilter contact_id }

/-- Insert a chunk into a list kept in descending similarity-score order. -/
def insertRanked (score : Chunk → Nat) (c : Chunk) : List Chunk → List Chunk
  | [] => [c]
  | d :: ds => if score d ≤ score c then c :: d :: ds else d :: insertRanked score c ds

/-- Order chunks by descending similarity score. -/
def rankBy (score : Chunk → Nat) : List Chunk → List Chunk
  | [] => []
  | c :: cs => insertRanked score c (rankBy score cs)

/-- Chroma similarity search as invoked by a retriever with a `filter` in
`search_kwargs`: the filter restricts the candidate set at the index-query
level, then the `k` nearest candidates by similarity are returned. The
similarity of a chunk to the (fixed) query is abstracted as `score`. -/
def vectorstoreSearch (store : List Chunk) (score : Chunk → Nat) (r : Retriever) : List Chunk :=
  (rankBy score (store.filter fun c => r.flt c.metadata)).take r.k

/-- The context chunks retrieved inside `answer_for_contact`: the chain's
retrieval step runs the contact-scoped retriever (with default `k`) on the
query. `score q` is the similarity of a chunk to query `q`. -/
def retrievalContext (score : String → Chunk → Nat) (store : List Chunk)
    (contact_id query : String) : List Chunk :=
  vectorstoreSearch store (score query) (create_contact_scoped_retriever contact_id none)

/-- Fallback answer string in `answer_for_contact`. -/
def FALLBACK : String := "I couldn't find relevant information for your account."

/-- Translation of `answer_for_contact(vectorstore, contact_id, query)`.
The rag chain's generation step is abstracted as `llm`, mapping the query
and the retrieved context to the optional `"answer"` field of the chain
result (`none` = key missing). The final line of the source is
`(result.get("answer") or "").strip() or FALLBACK`. -/
def answer_for_contact (llm : String → List Chunk → Option String)
    (score : String → Chunk → Nat) (store : List Chunk)
    (contact_id query : String) : String :=
  let context := retrievalContext score store contact_id query
  let stripped := pyStrip ((llm query context).getD "")
  if stripped = "" then FALLBACK else stripped

/-- One recorded invocation of the ingestion progress callback
`on_progress(processed, total, msg)`. -/
structure Progress where
  processed : Nat
  total : Nat
  message : String
deriving DecidableEq, Repr

/-- Group a reversed digit list into blocks of three separated by commas. -/
def commaGroupsRev (ds : List Char) : List Char :=
  if ds.length ≤ 3 then ds
  else ds.take 3 ++ ',' :: commaGroupsRev (ds.drop 3)
termination_by ds.length
decreasing_by simp; omega

/-- Python's `f"{n:,}"` formatting of a natural number (thousands separators). -/
def pyCommaFmt (n : Nat) : String :=
  String.mk (commaGroupsRev (toString n).data.reverse).reverse

/-- The consecutive slices `docs[i : i + batch_size]` visited by
`for i in range(0, total, batch_size)`. Only used with `B ≠ 0`
(Python's `range` raises on step 0, handled separately). -/
def chunksOf (B : Nat) (l : List α) : List (List α) :=
  if _hB : B = 0 then []
  else match l with
    | [] => []
    | a :: t => (a :: t).take B :: chunksOf B ((a :: t).drop B)
termination_by l.length
decreasing_by simp; omega

/-- Environment of the ingestion module: the configuration read from the
process environment and the external text splitter. `split` is
`text_splitter.split_documents` restricted to one document;
`split_documents(batch)` concatenates the per-document chunk lists. -/
structure IngestEnv where
  apiKeySet : Bool
  ingestBatchSize : Nat
  split : Document → List Chunk

/-- Error message raised by `get_embeddings` when `OPENAI_API_KEY` is empty. -/
def OPENAI_KEY_ERROR : String := "OPENAI_API_KEY is not set. Add it to your .env file."

/-- Translation of `get_embeddings()`: raises `ValueError` when the key is
not set, otherwise returns the embeddings handle (abstracted to `Unit`). -/
def get_embeddings (env : IngestEnv) : Except String Unit :=
  if env.apiKeySet then .ok () else .error OPENAI_KEY_ERROR

/-- The splitter applied to a document list
(`text_splitter.split_documents(docs)`). -/
def split_documents (env : IngestEnv) (docs : List Document) : List Chunk :=
  docs.flatMap env.split

/-- Python's `batch_size = batch_size or INGEST_BATCH_SIZE`: `None` and `0`
are falsy and select the configured default. -/
def effectiveBatchSize (env : IngestEnv) (batch_size : Option Nat) : Nat :=
  match batch_size with
  | none => env.ingestBatchSize
  | some 0 => env.ingestBatchSize
  | some (b + 1) => b + 1

/-- The batch loop of `ingest_documents_batched`: for each batch, split it,
`vectorstore.add_documents(splits)` (accumulated in the first component),
and invoke the progress callback (recorded in the second component). -/
def batchLoop (split : Document → List Chunk) (total totalBatches : Nat) :
    List (List Document) → Nat → Nat → List Chunk × List Progress
  | [], _, _ => ([], [])
  | b :: rest, batchNum, processed =>
      let splits := b.flatMap split
      let processed' := processed + b.length
      let msg := "Embedding batch " ++ toString batchNum ++ "/" ++ toString totalBatches
        ++ " (" ++ pyCommaFmt processed' ++ "/" ++ pyCommaFmt total ++ " docs)"
      let r := batchLoop split total totalBatches rest (batchNum + 1) processed'
      (splits ++ r.1, ⟨processed', total, msg⟩ :: r.2)

/-- Translation of `ingest_documents_batched(docs, batch_size, on_progress)`
acting on the collection state. On success it returns the chunks now in the
collection together with the full list of progress-callback invocations.
Steps, in source order: reject empty input; resolve the batch size; create
the embeddings (raises without an API key); `mkdir` (filesystem only);
delete any existing collection, swallowing errors (replace semantics);
construct `Chroma(...)`, which get-or-creates the collection empty; then
the batch loop. `range(0, total, 0)` raises `ValueError` in Python, after
the collection has already been replaced by an empty one. -/
def ingest_documents_batched (env : IngestEnv) (docs : List Document)
    (batch_size : Option Nat) (st : CollectionState) :
    CollectionState × Except String (List Chunk × List Progress) :=
  if docs.isEmpty then (st, .error "No documents to ingest")
  else
    let B := effectiveBatchSize env batch_size
    match get_embeddings env with
    | .error e => (st, .error e)
    | .ok () =>
      if B = 0 then (some [], .error "range() arg 3 must not be zero")
      else
        let total := docs.length
        let totalBatches := (total + B - 1) / B
        let r := batchLoop env.split total totalBatches (chunksOf B docs) 1 0
        (some r.1, .ok r)

/-- The progress-callback invocations produced by a successful
`ingest_documents_batched` run with effective batch size `B`. -/
def ingestProgress (env : IngestEnv) (docs : List Document) (B : Nat) : List Progress :=
  (batchLoop env.split docs.length ((docs.length + B - 1) / B) (chunksOf B docs) 1 0).2

/-- Translation of `index_documents(paths)` acting on the collection state.
`load_documents` is the external file-loader collaborator `loader`. There
is no collection delete here: `Chroma.from_documents` get-or-creates the
named collection and then adds the new chunks to it (append). -/
def index_documents (env : IngestEnv) (loader : List String → List Document)
    (paths : List String) (st : CollectionState) :
    CollectionState × Except String (List Chunk) :=
  match get_embeddings env with
  | .error e => (st, .error e)
  | .ok () =>
      let docs := loader paths
      let splits := split_documents env docs
      let contents := st.getD [] ++ splits
      (some contents, .ok contents)

/-- Outcome of opening the store and probing it with
`vectorstore._collection.count()`. -/
inductive ProbeOutcome where
  | ok
  | internalError (msg : String)
  | otherError
deriving DecidableEq

/-- Environment of `load_vectorstore`: the API-key configuration, whether
`CHROMA_PERSIST_DIR` exists on disk, and the probe outcome. -/
structure LoadEnv where
  apiKeySet : Bool
  persistDirExists : Bool
  probe : ProbeOutcome

/-- Translation of `_delete_collection_if_corrupt()`: delete the collection,
swallowing any error. -/
def _delete_collection_if_corrupt (_st : CollectionState) : CollectionState := none

/-- Translation of `load_vectorstore()` acting on the collection state.
In source order: missing persist directory returns `None`;
`get_embeddings()` runs outside the `try` block, so a missing API key
raises out of the function; otherwise `Chroma(...)` get-or-creates the
collection and the count probe runs — `chromadb.errors.InternalError`
deletes the collection and returns `None`, any other exception returns
`None` with the collection left as opened. -/
def load_vectorstore (env : LoadEnv) (st : CollectionState) :
    CollectionState × Except String (Option (List Chunk)) :=
  if !env.persistDirExists then (st, .ok none)
  else if !env.apiKeySet then (st, .error OPENAI_KEY_ERROR)
  else
    let opened : List Chunk := st.getD []
    match env.probe with
    | .ok => (some opened, .ok (some opened))
    | .internalError _ => (_delete_collection_if_corrupt (some opened), .ok none)
    | .otherError => (some opened, .ok none)

/-- Control point of one thread executing `_get_vectorstore()` in
`webhook.py`. `start`: about to do the fast unsynchronized read of
`_vectorstore_cache`; `waitLock`: the fast read saw `None`, waiting on
`_vectorstore_lock`; `locked`: holds the lock, about to re-check the cache
(double-checked locking); `loading`: the re-check saw `None`, the call to
`load_vectorstore()` is in flight; `finished r`: the function returned `r`. -/
inductive ThreadPC (V : Type) where
  | start
  | waitLock
  | locked
  | loading
  | finished (r : Option V)
deriving DecidableEq

/-- Process-wide state for `webhook.py`'s module-level cache: the
`_vectorstore_cache` global, the holder of `_vectorstore_lock` (if any),
the control point of every thread, and a counter of `load_vectorstore()`
calls started. -/
structure CacheSys (ι V : Type) where
  cache : Option V
  lockHolder : Option ι
  pc : ι → ThreadPC V
  loads : Nat

/-- Initial process state: empty cache, free lock, every thread at the top
of `_get_vectorstore`, no loads performed. -/
def initSys (ι V : Type) : CacheSys ι V :=
  { cache := none, lockHolder := none, pc := fun _ => .start, loads := 0 }

/-- Interleaving semantics of concurrent `_get_vectorstore()` calls.
`loadResult` is the (fixed, for the modelled window) return value of
`load_vectorstore()`. Reads and the single assignment to the cache global
are atomic; the load itself spans two transitions (`beginLoad`/`endLoad`)
so that other threads interleave with it. -/
inductive CacheStep [DecidableEq ι] (loadResult : Option V) :
    CacheSys ι V → CacheSys ι V → Prop where
  | fastHit (s : CacheSys ι V) (i : ι) (v : V) :
      s.pc i = .start → s.cache = some v →
      CacheStep loadResult s { s with pc := Function.update s.pc i (.finished (some v)) }
  | fastMiss (s : CacheSys ι V) (i : ι) :
      s.pc i = .start → s.cache = none →
      CacheStep loadResult s { s with pc := Function.update s.pc i .waitLock }
  | acquire (s : CacheSys ι V) (i : ι) :
      s.pc i = .waitLock → s.lockHolder = none →
      CacheStep loadResult s
        { s with lockHolder := some i, pc := Function.update s.pc i .locked }
  | recheckHit (s : CacheSys ι V) (i : ι) (v : V) :
      s.pc i = .locked → s.cache = some v →
      CacheStep loadResult s
        { s with lockHolder := none, pc := Function.update s.pc i (.finished (some v)) }
  | beginLoad (s : CacheSys ι V) (i : ι) :
      s.pc i = .locked → s.cache = none →
      CacheStep loadResult s
        { s with loads := s.loads + 1, pc := Function.update s.pc i .loading }
  | endLoad (s : CacheSys ι V) (i : ι) :
      s.pc i = .loading →
      CacheStep loadResult s
        { s with cache := loadResult, lockHolder := none,
                 pc := Function.update s.pc i (.finished loadResult) }

/-- States reachable from the initial process state by any interleaving. -/
def Reachable [DecidableEq ι] (loadResult : Option V) (s : CacheSys ι V) : Prop :=
  Relation.ReflTransGen (CacheStep loadResult) (initSys ι V) s

/-- Sequential (single-call) semantics of `_get_vectorstore()`: given the
current cache it returns the new cache, the returned value, and whether
`load_vectorstore()` was called. On a populated cache the fast read
returns it; otherwise the locked re-check still sees the same cache and
the load runs. -/
def getVectorstoreOnce (loadResult cache : Option V) : Option V × Option V × Bool :=
  match cache with
  | some v => (some v, some v, false)
  | none => (loadResult, loadResult, true)

/-- Run `n` successive calls to `_get_vectorstore()` from a given cache
state, returning the final cache and the number of `load_vectorstore()`
calls made. -/
def getVectorstoreCalls (loadResult : Option V) : Nat → Option V → Option V × Nat
  | 0, cache => (cache, 0)
  | n + 1, cache =>
      let r := getVectorstoreOnce loadResult cache
      let rest := getVectorstoreCalls loadResult n r.1
      (rest.1, rest.2 + (if r.2.2 then 1 else 0))

/-- Python's `s.lower()` (ASCII suffices for the markers checked). -/
def pyLower (s : String) : String := String.mk (s.data.map Char.toLower)

/-- Check that `needle` occurs at the head of `hay`. -/
def startsWithL : List Char → List Char → Bool
  | [], _ => true
  | _ :: _, [] => false
  | a :: as, b :: bs => a == b && startsWithL as bs

/-- Python's `needle in hay` substring test on character lists. -/
def hasSubstr (needle : List Char) : List Char → Bool
  | [] => needle.isEmpty
  | b :: bs => startsWithL needle (b :: bs) || hasSubstr needle bs

/-- The corruption-marker test of `_process_message`:
`"hnsw" in str(e).lower() or "compactor" in str(e).lower()`. -/
def corruptionMarker (emsg : String) : Bool :=
  hasSubstr "hnsw".data (pyLower emsg).data
    || hasSubstr "compactor".data (pyLower emsg).data

/-- Translation of `_invalidate_vectorstore_cache()`: drop the cached
vectorstore (the lock acquisition has no observable effect beyond that). -/
def _invalidate_vectorstore_cache (_cache : Option V) : Option V := none

/-- Fixed apology sent when answer generation raises. -/
def APOLOGY : String := "Sorry, I encountered an error. Please try again."

/-- Translation of the `except Exception as e` handler around
`answer_for_contact` in `_process_message` (webhook.py lines 70–77): given
the cache and the exception text, it returns the cache afterwards and the
reply sent to the user. -/
def handleAnswerException (cache : Option V) (emsg : String) : Option V × String :=
  if corruptionMarker emsg then (_invalidate_vectorstore_cache cache, APOLOGY)
  else (cache, APOLOGY)

/-- Inductive invariant of the cache system when `load_vectorstore()`
returns `some v`: lock exclusivity, cache monotonicity, and the
load-at-most-once accounting. -/
def Inv8 {ι V : Type} (v : V) (s : CacheSys ι V) : Prop :=
  (∀ i, s.pc i = .locked ∨ s.pc i = .loading → s.lockHolder = some i)
    ∧ (∀ w, s.cache = some w → w = v)
    ∧ (s.cache = some v → s.loads = 1)
    ∧ (∀ i, s.pc i = .loading → s.loads = 1 ∧ s.cache = none)
    ∧ s.loads ≤ 1
    ∧ (∀ i r, s.pc i = .finished r → r = some v ∧ s.cache = some v)
    ∧ (s.loads = 1 → s.cache = some v ∨ ∃ i, s.pc i = .loading)

/-- Inductive invariant of the cache system when `load_vectorstore()`
returns `None`: the cache is never populated and every completed call
returned `None`. -/
def Inv10 {ι V : Type} (s : CacheSys ι V) : Prop :=
  s.cache = none ∧ ∀ i r, s.pc i = .finished r → r = none

lemma mem_insertRanked {score : Chunk → Nat} {c a : Chunk} :
    ∀ {l : List Chunk}, a ∈ insertRanked score c l → a = c ∨ a ∈ l := by
  intro l
  induction l with
  | nil => intro h; simp [insertRanked] at h; exact Or.inl h
  | cons d ds ih =>
      intro h
      unfold insertRanked at h
      by_cases hle : score d ≤ score c
      · rw [if_pos hle] at h
        rcases List.mem_cons.mp h with h | h
        · exact Or.inl h
        · exact Or.inr h
      · rw [if_neg hle] at h
        rcases List.mem_cons.mp h with h | h
        · exact Or.inr (List.mem_cons.mpr (Or.inl h))
        · rcases ih h with h | h
          · exact Or.inl h
          · exact Or.inr (List.mem_cons.mpr (Or.inr h))

lemma mem_rankBy {score : Chunk → Nat} {a : Chunk} :
    ∀ {l : List Chunk}, a ∈ rankBy score l → a ∈ l := by
  intro l
  induction l with
  | nil => intro h; simp [rankBy] at h
  | cons c cs ih =>
      intro h
      rcases mem_insertRanked h with h | h
      · exact h ▸ List.mem_cons_self _ _
      · exact List.mem_cons.mpr (Or.inr (ih h))

/-- C1: every chunk returned by the contact-scoped retriever built by
`create_contact_scoped_retriever` — hence every chunk surfaced as context
by `answer_for_contact(vectorstore, a, q)` — has metadata matching
`hs_object_id == a` or `associated_contact_id == a` (the filter runs at the
index-query level, on the candidate set, before top-k selection); a chunk
whose metadata belongs exclusively to a different identity `b` is never
returned, for every query `q`. -/
theorem contact_scoped_retrieval_isolation
    (score : String → Chunk → Nat) (store : List Chunk) (a b q : String) (c : Chunk)
    (hmem : c ∈ retrievalContext score store a q) :
    matchesContactFilter a c.metadata = true ∧
      (matchesContactFilter b c.metadata = true →
        matchesContactFilter a c.metadata = false → False) := by
  unfold retrievalContext vectorstoreSearch at hmem
  have h1 : c ∈ rankBy (score q)
      (store.filter fun d => (create_contact_scoped_retriever a none).flt d.metadata) :=
    List.take_subset _ _ hmem
  have h2 := mem_rankBy h1
  have h3 := (List.mem_filter.mp h2).2
  have h4 : matchesContactFilter a c.metadata = true := h3
  exact ⟨h4, fun _ hfa => by rw [h4] at hfa; cases hfa⟩

/-- Witness for C1 at a concrete store of two chunks, one per identity. -/
theorem contact_scoped_retrieval_isolation_witness :
    (⟨"Contact: Jane Doe", ⟨some "1", none⟩⟩ : Chunk) ∈
        retrievalContext (fun _ _ => 0)
          [⟨"Contact: Jane Doe", ⟨some "1", none⟩⟩, ⟨"Deal: Big Deal", ⟨some "2", none⟩⟩]
          "1" "what deals does this contact have?" ∧
      (matchesContactFilter "1" (⟨some "1", none⟩ : Metadata) = true ∧
        (matchesContactFilter "2" (⟨some "1", none⟩ : Metadata) = true →
          matchesContactFilter "1" (⟨some "1", none⟩ : Metadata) = false → False)) :=
  ⟨by decide,
    contact_scoped_retrieval_isolation (fun _ _ => 0)
      [⟨"Contact: Jane Doe", ⟨some "1", none⟩⟩, ⟨"Deal: Big Deal", ⟨some "2", none⟩⟩]
      "1" "2" "what deals does this contact have?"
      ⟨"Contact: Jane Doe", ⟨some "1", none⟩⟩ (by decide)⟩

/-- C7: whenever the chain's `"answer"` field is missing, empty, or
whitespace-only, `answer_for_contact` returns the fixed fallback string
(it never raises there: the translation is a total function). -/
theorem answer_for_contact_fallback
    (llm : String → List Chunk → Option String) (score : String → Chunk → Nat)
    (store : List Chunk) (cid q : String)
    (h : llm q (retrievalContext score store cid q) = none ∨
      pyStrip ((llm q (retrievalContext score store cid q)).getD "") = "") :
    answer_for_contact llm score store cid q = FALLBACK := by
  have hempty : pyStrip "" = "" := by decide
  rcases h with h | h
  · simp [answer_for_contact, h, hempty]
  · simp [answer_for_contact, h]

/-- Witness for C7 with an LLM that answers only whitespace. -/
theorem answer_for_contact_fallback_witness :
    ((fun (_ : String) (_ : List Chunk) => some "  \n ") "q"
          (retrievalContext (fun _ _ => 0) [] "1" "q") = none ∨
        pyStrip ((((fun (_ : String) (_ : List Chunk) => some "  \n ")) "q"
          (retrievalContext (fun _ _ => 0) [] "1" "q")).getD "") = "") ∧
      answer_for_contact (fun _ _ => some "  \n ") (fun _ _ => 0) [] "1" "q" = FALLBACK :=
  ⟨Or.inr (by decide),
    answer_for_contact_fallback (fun _ _ => some "  \n ") (fun _ _ => 0) [] "1" "q"
      (Or.inr (by decide))⟩

lemma chunksOf_nil {B : Nat} (hB : B ≠ 0) : chunksOf B ([] : List α) = [] := by
  unfold chunksOf; simp [hB]

lemma chunksOf_cons {B : Nat} (hB : B ≠ 0) (a : α) (t : List α) :
    chunksOf B (a :: t) = (a :: t).take B :: chunksOf B ((a :: t).drop B) := by
  rw [chunksOf]; simp [hB]

lemma chunksOf_flatten {B : Nat} (hB : B ≠ 0) (l : List α) :
    (chunksOf B l).flatten = l := by
  have key : ∀ (n : Nat) (l : List α), l.length ≤ n → (chunksOf B l).flatten = l := by
    intro n
    induction n with
    | zero =>
        intro l hl
        have hnil : l = [] := List.length_eq_zero.mp (Nat.le_zero.mp hl)
        subst hnil; rw [chunksOf_nil hB]; rfl
    | succ n ih =>
        intro l hl
        cases l with
        | nil => rw [chunksOf_nil hB]; rfl
        | cons a t =>
            rw [chunksOf_cons hB, List.flatten_cons]
            have hdrop : ((a :: t).drop B).length ≤ n := by
              rw [List.length_drop]
              simp only [List.length_cons] at hl ⊢
              omega
            rw [ih _ hdrop, List.take_append_drop]
  exact key l.length l le_rfl

lemma chunksOf_length {B : Nat} (hB : B ≠ 0) (l : List α) :
    (chunksOf B l).length = (l.length + B - 1) / B := by
  have hBpos : 0 < B := Nat.pos_of_ne_zero hB
  have key : ∀ (n : Nat) (l : List α), l.length ≤ n →
      (chunksOf B l).length = (l.length + B - 1) / B := by
    intro n
    induction n with
    | zero =>
        intro l hl
        have hnil : l = [] := List.length_eq_zero.mp (Nat.le_zero.mp hl)
        subst hnil
        rw [chunksOf_nil hB]
        simp only [List.length_nil, Nat.zero_add]
        exact (Nat.div_eq_of_lt (by omega)).symm
    | succ n ih =>
        intro l hl
        cases l with
        | nil =>
            rw [chunksOf_nil hB]
            simp only [List.length_nil, Nat.zero_add]
            exact (Nat.div_eq_of_lt (by omega)).symm
        | cons a t =>
            rw [chunksOf_cons hB, List.length_cons, ih _ (by
              rw [List.length_drop]
              simp only [List.length_cons] at hl ⊢
              omega)]
            rw [List.length_drop, List.length_cons]
            rcases le_or_lt B (t.length + 1) with hc | hc
            · have e1 : t.length + 1 - B + B - 1 = t.length := by omega
              have e2 : t.length + 1 + B - 1 = t.length + B := by omega
              rw [e1, e2, Nat.add_div_right _ hBpos]
            · have e1 : t.length + 1 - B + B - 1 = B - 1 := by omega
              have e2 : t.length + 1 + B - 1 = t.length + B := by omega
              rw [e1, e2, Nat.add_div_right _ hBpos,
                Nat.div_eq_of_lt (show B - 1 < B by omega),
                Nat.div_eq_of_lt (show t.length < B by omega)]
  exact key l.length l le_rfl

lemma flatMap_flatten (f : α → List β) (ll : List (List α)) :
    ll.flatten.flatMap f = ll.flatMap (fun b => b.flatMap f) := by
  induction ll with
  | nil => rfl
  | cons b bs ih => simp [List.flatten_cons, ih]

lemma batchLoop_fst (split : Document → List Chunk) (total tb : Nat) :
    ∀ (bl : List (List Document)) (bn p : Nat),
      (batchLoop split total tb bl bn p).1 = bl.flatMap (fun b => b.flatMap split) := by
  intro bl
  induction bl with
  | nil => intro bn p; rfl
  | cons b rest ih => intro bn p; simp [batchLoop, ih]

lemma batchLoop_snd_length (split : Document → List Chunk) (total tb : Nat) :
    ∀ (bl : List (List Document)) (bn p : Nat),
      (batchLoop split total tb bl bn p).2.length = bl.length := by
  intro bl
  induction bl with
  | nil => intro bn p; rfl
  | cons b rest ih => intro bn p; simp [batchLoop, ih]

lemma getLast?_cons_of_ne_nil (a : α) {l : List α} (h : l ≠ []) :
    (a :: l).getLast? = l.getLast? := by
  cases l with
  | nil => exact absurd rfl h
  | cons b t => exact List.getLast?_cons_cons

lemma batchLoop_last (split : Document → List Chunk) (total tb : Nat) :
    ∀ (bl : List (List Document)) (bn p : Nat), bl ≠ [] →
      ∃ m, (batchLoop split total tb bl bn p).2.getLast? =
        some ⟨p + (bl.map List.length).sum, total, m⟩ := by
  intro bl
  induction bl with
  | nil => intro _ _ h; exact absurd rfl h
  | cons b rest ih =>
      intro bn p _
      cases rest with
      | nil =>
          exact ⟨"Embedding batch " ++ toString bn ++ "/" ++ toString tb
            ++ " (" ++ pyCommaFmt (p + b.length) ++ "/" ++ pyCommaFmt total ++ " docs)",
            by simp [batchLoop]⟩
      | cons b2 rest2 =>
          obtain ⟨m, hm⟩ := ih (bn + 1) (p + b.length) (by simp)
          refine ⟨m, ?_⟩
          have hne : (batchLoop split total tb (b2 :: rest2) (bn + 1) (p + b.length)).2 ≠ [] := by
            intro hnil
            have hlen := batchLoop_snd_length split total tb (b2 :: rest2) (bn + 1) (p + b.length)
            rw [hnil] at hlen
            simp at hlen
          have hstep : (batchLoop split total tb (b :: b2 :: rest2) bn p).2.getLast? =
              (batchLoop split total tb (b2 :: rest2) (bn + 1) (p + b.length)).2.getLast? :=
            getLast?_cons_of_ne_nil _ hne
          rw [hstep, hm]
          have harith : p + b.length + ((b2 :: rest2).map List.length).sum =
              p + ((b :: b2 :: rest2).map List.length).sum := by
            simp [Nat.add_assoc]
          rw [harith]

lemma effectiveBatchSize_ne_zero {env : IngestEnv} (hB : env.ingestBatchSize ≠ 0)
    (bs : Option Nat) : effectiveBatchSize env bs ≠ 0 := by
  cases bs with
  | none => exact hB
  | some b => cases b with
    | zero => exact hB
    | succ n => simp [effectiveBatchSize]

lemma ingest_batched_success (env : IngestEnv) (docs : List Document) (bs : Option Nat)
    (st : CollectionState) (hne : docs ≠ []) (hkey : env.apiKeySet = true)
    (hB : env.ingestBatchSize ≠ 0) :
    ingest_documents_batched env docs bs st =
      (some (split_documents env docs),
        .ok (split_documents env docs, ingestProgress env docs (effectiveBatchSize env bs))) := by
  have hE : effectiveBatchSize env bs ≠ 0 := effectiveBatchSize_ne_zero hB bs
  have hie : docs.isEmpty = false := by
    cases docs with
    | nil => exact absurd rfl hne
    | cons a t => rfl
  have hsplit : (batchLoop env.split docs.length
      ((docs.length + effectiveBatchSize env bs - 1) / effectiveBatchSize env bs)
      (chunksOf (effectiveBatchSize env bs) docs) 1 0).1 = split_documents env docs := by
    rw [batchLoop_fst, ← flatMap_flatten, chunksOf_flatten hE]; rfl
  simp only [ingest_documents_batched, hie, Bool.false_eq_true, if_false,
    get_embeddings, hkey, if_true, hE, ingestProgress]
  rw [← hsplit]

/-- C2 counterexample: `index_documents` does not delete the existing
collection — `Chroma.from_documents` appends. Ingesting the same single
document (split into one chunk) twice through `index_documents` leaves one
chunk after the first run and two after the second, so the chunk count is
not the same both times. -/
theorem index_documents_twice_appends :
    (index_documents ⟨true, 500, fun d => [d]⟩
        (fun _ => [⟨"Contact: Jane Doe", ⟨some "1", none⟩⟩]) ["contacts.txt"] none).1
      = some [⟨"Contact: Jane Doe", ⟨some "1", none⟩⟩] ∧
    (index_documents ⟨true, 500, fun d => [d]⟩
        (fun _ => [⟨"Contact: Jane Doe", ⟨some "1", none⟩⟩]) ["contacts.txt"]
        (index_documents ⟨true, 500, fun d => [d]⟩
          (fun _ => [⟨"Contact: Jane Doe", ⟨some "1", none⟩⟩]) ["contacts.txt"] none).1).1
      = some [⟨"Contact: Jane Doe", ⟨some "1", none⟩⟩, ⟨"Contact: Jane Doe", ⟨some "1", none⟩⟩] ∧
    ((index_documents ⟨true, 500, fun d => [d]⟩
        (fun _ => [⟨"Contact: Jane Doe", ⟨some "1", none⟩⟩]) ["contacts.txt"]
        (index_documents ⟨true, 500, fun d => [d]⟩
          (fun _ => [⟨"Contact: Jane Doe", ⟨some "1", none⟩⟩]) ["contacts.txt"] none).1).1.getD []).length
      ≠ ((index_documents ⟨true, 500, fun d => [d]⟩
          (fun _ => [⟨"Contact: Jane Doe", ⟨some "1", none⟩⟩]) ["contacts.txt"] none).1.getD []).length :=
  ⟨rfl, rfl, by decide⟩

/-- C2 (amended): the replace-then-same-count property holds for
`ingest_documents_batched` — any existing collection is deleted before the
first write, the resulting collection depends only on the input, and a
second run in succession yields the same chunks (hence the same chunk
count). It does not hold for `index_documents`, which appends to the
existing collection (see the counterexample). -/
theorem ingest_documents_batched_replace_idempotent
    (env : IngestEnv) (docs : List Document) (bs : Option Nat) (st : CollectionState)
    (hne : docs ≠ []) (hkey : env.apiKeySet = true) (hB : env.ingestBatchSize ≠ 0) :
    (ingest_documents_batched env docs bs st).1 = some (split_documents env docs) ∧
      (ingest_documents_batched env docs bs (ingest_documents_batched env docs bs st).1).1
        = some (split_documents env docs) := by
  have h1 : (ingest_documents_batched env docs bs st).1 = some (split_documents env docs) :=
    congrArg Prod.fst (ingest_batched_success env docs bs st hne hkey hB)
  refine ⟨h1, ?_⟩
  rw [h1]
  exact congrArg Prod.fst
    (ingest_batched_success env docs bs (some (split_documents env docs)) hne hkey hB)

/-- Witness for C2's amended theorem at a concrete two-document ingest over
a non-empty prior collection. -/
theorem ingest_documents_batched_replace_idempotent_witness :
    ([⟨"a", ⟨some "1", none⟩⟩, ⟨"b", ⟨some "2", some "1"⟩⟩] : List Document) ≠ [] ∧
      (⟨true, 2, fun d => [d]⟩ : IngestEnv).apiKeySet = true ∧
      (⟨true, 2, fun d => [d]⟩ : IngestEnv).ingestBatchSize ≠ 0 ∧
      ((ingest_documents_batched ⟨true, 2, fun d => [d]⟩
            [⟨"a", ⟨some "1", none⟩⟩, ⟨"b", ⟨some "2", some "1"⟩⟩] none
            (some [⟨"old", ⟨none, none⟩⟩])).1
          = some (split_documents ⟨true, 2, fun d => [d]⟩
              [⟨"a", ⟨some "1", none⟩⟩, ⟨"b", ⟨some "2", some "1"⟩⟩]) ∧
        (ingest_documents_batched ⟨true, 2, fun d => [d]⟩
            [⟨"a", ⟨some "1", none⟩⟩, ⟨"b", ⟨some "2", some "1"⟩⟩] none
            (ingest_documents_batched ⟨true, 2, fun d => [d]⟩
              [⟨"a", ⟨some "1", none⟩⟩, ⟨"b", ⟨some "2", some "1"⟩⟩] none
              (some [⟨"old", ⟨none, none⟩⟩])).1).1
          = some (split_documents ⟨true, 2, fun d => [d]⟩
              [⟨"a", ⟨some "1", none⟩⟩, ⟨"b", ⟨some "2", some "1"⟩⟩])) :=
  ⟨by simp, rfl, by decide,
    ingest_documents_batched_replace_idempotent ⟨true, 2, fun d => [d]⟩
      [⟨"a", ⟨some "1", none⟩⟩, ⟨"b", ⟨some "2", some "1"⟩⟩] none
      (some [⟨"old", ⟨none, none⟩⟩]) (by simp) rfl (by decide)⟩

/-- C3: `ingest_documents_batched` raises exactly on empty input (given a
configured API key and a positive configured batch size, every non-empty
input succeeds), and the empty-input rejection happens first, before any
index mutation: the collection state is returned unchanged alongside the
error. -/
theorem ingest_documents_batched_rejects_empty_only :
    ∀ (env : IngestEnv) (bs : Option Nat) (st : CollectionState),
      ingest_documents_batched env [] bs st = (st, .error "No documents to ingest")
      ∧ (env.apiKeySet = true → env.ingestBatchSize ≠ 0 →
          ∀ docs : List Document, docs ≠ [] →
            (ingest_documents_batched env docs bs st).2
              = .ok (split_documents env docs,
                  ingestProgress env docs (effectiveBatchSize env bs))) := by
  intro env bs st
  refine ⟨rfl, ?_⟩
  intro hkey hB docs hne
  exact congrArg Prod.snd (ingest_batched_success env docs bs st hne hkey hB)

/-- Witness for C3: the empty-list rejection leaves a pre-existing
collection untouched, and a singleton ingest succeeds. -/
theorem ingest_documents_batched_rejects_empty_only_witness :
    ingest_documents_batched ⟨true, 500, fun d => [d]⟩ ([] : List Document) none
        (some [⟨"old", ⟨none, none⟩⟩])
      = (some [⟨"old", ⟨none, none⟩⟩], .error "No documents to ingest") ∧
    (ingest_documents_batched ⟨true, 500, fun d => [d]⟩ [⟨"a", ⟨some "1", none⟩⟩] none
        (some [⟨"old", ⟨none, none⟩⟩])).2
      = .ok (split_documents ⟨true, 500, fun d => [d]⟩ [⟨"a", ⟨some "1", none⟩⟩],
          ingestProgress ⟨true, 500, fun d => [d]⟩ [⟨"a", ⟨some "1", none⟩⟩] 500) :=
  ⟨(ingest_documents_batched_rejects_empty_only ⟨true, 500, fun d => [d]⟩ none
      (some [⟨"old", ⟨none, none⟩⟩])).1,
    (ingest_documents_batched_rejects_empty_only ⟨true, 500, fun d => [d]⟩ none
      (some [⟨"old", ⟨none, none⟩⟩])).2 rfl (by decide) _ (by simp)⟩

/-- C4: for non-empty input and effective batch size at least 1, the batch
loop processes the documents as consecutive slices of the input in order
(their concatenation is the input), the progress callback fires once per
batch, `ceil(N/B)` times in total, and its final invocation reports
`processed = N` and `total = N`. -/
theorem ingest_documents_batched_batch_completeness
    (env : IngestEnv) (docs : List Document) (bs : Option Nat) (st : CollectionState)
    (hne : docs ≠ []) (hkey : env.apiKeySet = true) (hB : env.ingestBatchSize ≠ 0) :
    (chunksOf (effectiveBatchSize env bs) docs).flatten = docs ∧
      (ingestProgress env docs (effectiveBatchSize env bs)).length
        = (docs.length + effectiveBatchSize env bs - 1) / effectiveBatchSize env bs ∧
      (∃ m, (ingestProgress env docs (effectiveBatchSize env bs)).getLast?
        = some ⟨docs.length, docs.length, m⟩) ∧
      (ingest_documents_batched env docs bs st).2
        = .ok (split_documents env docs, ingestProgress env docs (effectiveBatchSize env bs)) := by
  have hE := effectiveBatchSize_ne_zero hB bs
  refine ⟨chunksOf_flatten hE docs, ?_, ?_,
    congrArg Prod.snd (ingest_batched_success env docs bs st hne hkey hB)⟩
  · rw [ingestProgress, batchLoop_snd_length, chunksOf_length hE]
  · have hblne : chunksOf (effectiveBatchSize env bs) docs ≠ [] := by
      intro h0
      have hfl := chunksOf_flatten hE docs
      rw [h0] at hfl
      simp at hfl
      exact hne hfl
    obtain ⟨m, hm⟩ := batchLoop_last env.split docs.length
      ((docs.length + effectiveBatchSize env bs - 1) / effectiveBatchSize env bs)
      (chunksOf (effectiveBatchSize env bs) docs) 1 0 hblne
    refine ⟨m, ?_⟩
    have hsum : ((chunksOf (effectiveBatchSize env bs) docs).map List.length).sum
        = docs.length := by
      rw [← List.length_flatten, chunksOf_flatten hE]
    rw [ingestProgress, hm, hsum]
    simp

/-- Witness for C4: three documents at batch size 2 make two batches; the
final callback reports 3 of 3. -/
theorem ingest_documents_batched_batch_completeness_witness :
    ([⟨"a", ⟨some "1", none⟩⟩, ⟨"b", ⟨some "2", some "1"⟩⟩, ⟨"c", ⟨some "3", none⟩⟩]
        : List Document) ≠ [] ∧
      ((chunksOf (effectiveBatchSize ⟨true, 2, fun d => [d]⟩ none)
          ([⟨"a", ⟨some "1", none⟩⟩, ⟨"b", ⟨some "2", some "1"⟩⟩, ⟨"c", ⟨some "3", none⟩⟩]
            : List Document)).flatten
        = [⟨"a", ⟨some "1", none⟩⟩, ⟨"b", ⟨some "2", some "1"⟩⟩, ⟨"c", ⟨some "3", none⟩⟩] ∧
      (ingestProgress ⟨true, 2, fun d => [d]⟩
          [⟨"a", ⟨some "1", none⟩⟩, ⟨"b", ⟨some "2", some "1"⟩⟩, ⟨"c", ⟨some "3", none⟩⟩]
          (effectiveBatchSize ⟨true, 2, fun d => [d]⟩ none)).length
        = (3 + effectiveBatchSize ⟨true, 2, fun d => [d]⟩ none - 1)
            / effectiveBatchSize ⟨true, 2, fun d => [d]⟩ none ∧
      (∃ m, (ingestProgress ⟨true, 2, fun d => [d]⟩
          [⟨"a", ⟨some "1", none⟩⟩, ⟨"b", ⟨some "2", some "1"⟩⟩, ⟨"c", ⟨some "3", none⟩⟩]
          (effectiveBatchSize ⟨true, 2, fun d => [d]⟩ none)).getLast? = some ⟨3, 3, m⟩) ∧
      (ingest_documents_batched ⟨true, 2, fun d => [d]⟩
          [⟨"a", ⟨some "1", none⟩⟩, ⟨"b", ⟨some "2", some "1"⟩⟩, ⟨"c", ⟨some "3", none⟩⟩]
          none none).2
        = .ok (split_documents ⟨true, 2, fun d => [d]⟩
            [⟨"a", ⟨some "1", none⟩⟩, ⟨"b", ⟨some "2", some "1"⟩⟩, ⟨"c", ⟨some "3", none⟩⟩],
            ingestProgress ⟨true, 2, fun d => [d]⟩
              [⟨"a", ⟨some "1", none⟩⟩, ⟨"b", ⟨some "2", some "1"⟩⟩, ⟨"c", ⟨some "3", none⟩⟩]
              (effectiveBatchSize ⟨true, 2, fun d => [d]⟩ none))) :=
  ⟨by simp,
    ingest_documents_batched_batch_completeness ⟨true, 2, fun d => [d]⟩
      [⟨"a", ⟨some "1", none⟩⟩, ⟨"b", ⟨some "2", some "1"⟩⟩, ⟨"c", ⟨some "3", none⟩⟩]
      none none (by simp) rfl (by decide)⟩

/-- C5 counterexample: `get_embeddings()` runs before the `try` block in
`load_vectorstore`, so with the persist directory present and
`OPENAI_API_KEY` unset the `ValueError` propagates to the caller instead of
being treated as "absent". -/
theorem load_vectorstore_raises_without_key :
    load_vectorstore ⟨false, true, .ok⟩ none = (none, .error OPENAI_KEY_ERROR) := rfl

/-- C5 (amended): `load_vectorstore` propagates no exception except the
missing-`OPENAI_API_KEY` configuration error raised by `get_embeddings`
when the persist directory exists; whenever the API key is configured (or
the persist directory is absent, which returns before `get_embeddings`), it
returns a vectorstore handle or `None`, with every failure other than
detected corruption treated as absent rather than raised. -/
theorem load_vectorstore_no_raise
    (env : LoadEnv) (st : CollectionState)
    (h : env.apiKeySet = true ∨ env.persistDirExists = false) :
    ∃ r, (load_vectorstore env st).2 = .ok r := by
  unfold load_vectorstore
  rcases h with h | h
  · cases hpd : env.persistDirExists with
    | false => exact ⟨none, rfl⟩
    | true =>
        simp only [h, hpd, Bool.not_true, Bool.false_eq_true, if_false]
        cases env.probe with
        | ok => exact ⟨_, rfl⟩
        | internalError m => exact ⟨none, rfl⟩
        | otherError => exact ⟨none, rfl⟩
  · simp only [h, Bool.not_false, if_true]
    exact ⟨none, rfl⟩

/-- Witness for C5's amended theorem: an open that fails with a
non-corruption error, with the key configured. -/
theorem load_vectorstore_no_raise_witness :
    ((⟨true, true, .otherError⟩ : LoadEnv).apiKeySet = true ∨
        (⟨true, true, .otherError⟩ : LoadEnv).persistDirExists = false) ∧
      ∃ r, (load_vectorstore ⟨true, true, .otherError⟩ (some [⟨"a", ⟨some "1", none⟩⟩])).2
        = .ok r :=
  ⟨Or.inl rfl,
    load_vectorstore_no_raise ⟨true, true, .otherError⟩
      (some [⟨"a", ⟨some "1", none⟩⟩]) (Or.inl rfl)⟩

/-- C6: when the persist directory exists and the count probe raises the
storage engine's `InternalError`, `load_vectorstore` deletes the collection
and returns absent, after which a non-empty ingestion run from the empty
state succeeds; when the persist directory does not exist it returns absent
with the state untouched (no deletion attempted). -/
theorem load_vectorstore_corruption_recovery :
    (∀ (env : LoadEnv) (st : CollectionState) (m : String),
        env.persistDirExists = true → env.apiKeySet = true →
        env.probe = .internalError m →
        load_vectorstore env st = (none, .ok none))
      ∧ (∀ (env : LoadEnv) (st : CollectionState),
          env.persistDirExists = false → load_vectorstore env st = (st, .ok none))
      ∧ (∀ (env : IngestEnv) (docs : List Document) (bs : Option Nat),
          docs ≠ [] → env.apiKeySet = true → env.ingestBatchSize ≠ 0 →
          (ingest_documents_batched env docs bs none).2
            = .ok (split_documents env docs,
                ingestProgress env docs (effectiveBatchSize env bs))) := by
  refine ⟨?_, ?_, ?_⟩
  · intro env st m hpd hkey hprobe
    unfold load_vectorstore
    simp only [hpd, hkey, hprobe, Bool.not_true, Bool.false_eq_true, if_false]
    rfl
  · intro env st hpd
    unfold load_vectorstore
    simp only [hpd, Bool.not_false, if_true]
  · intro env docs bs hne hkey hB
    exact congrArg Prod.snd (ingest_batched_success env docs bs none hne hkey hB)

/-- Witness for C6: a concrete corrupt probe, a concrete missing directory,
and a concrete rebuild ingest from the empty state. -/
theorem load_vectorstore_corruption_recovery_witness :
    load_vectorstore ⟨true, true, .internalError "hnsw segment error"⟩
        (some [⟨"a", ⟨some "1", none⟩⟩]) = (none, .ok none) ∧
      load_vectorstore ⟨true, false, .ok⟩ (some [⟨"a", ⟨some "1", none⟩⟩])
        = (some [⟨"a", ⟨some "1", none⟩⟩], .ok none) ∧
      (ingest_documents_batched ⟨true, 500, fun d => [d]⟩ [⟨"a", ⟨some "1", none⟩⟩]
          none none).2
        = .ok (split_documents ⟨true, 500, fun d => [d]⟩ [⟨"a", ⟨some "1", none⟩⟩],
            ingestProgress ⟨true, 500, fun d => [d]⟩ [⟨"a", ⟨some "1", none⟩⟩] 500) :=
  ⟨load_vectorstore_corruption_recovery.1 ⟨true, true, .internalError "hnsw segment error"⟩
      (some [⟨"a", ⟨some "1", none⟩⟩]) "hnsw segment error" rfl rfl rfl,
    load_vectorstore_corruption_recovery.2.1 ⟨true, false, .ok⟩
      (some [⟨"a", ⟨some "1", none⟩⟩]) rfl,
    load_vectorstore_corruption_recovery.2.2 ⟨true, 500, fun d => [d]⟩
      [⟨"a", ⟨some "1", none⟩⟩] none (by simp) rfl (by decide)⟩

/-- C9: an answer-generation exception whose text contains a corruption
marker (`hnsw` or `compactor`, case-insensitively) clears the process-wide
vectorstore cache; an exception without a marker leaves the cache
unchanged; and in both cases the reply sent to the user is the fixed
apology, independent of the exception text. -/
theorem process_message_error_invalidation {V : Type} (cache : Option V) (emsg : String) :
    (corruptionMarker emsg = true → (handleAnswerException cache emsg).1 = none)
      ∧ (corruptionMarker emsg = false → (handleAnswerException cache emsg).1 = cache)
      ∧ (handleAnswerException cache emsg).2 = APOLOGY := by
  refine ⟨?_, ?_, ?_⟩
  · intro h; simp [handleAnswerException, h, _invalidate_vectorstore_cache]
  · intro h; simp [handleAnswerException, h]
  · unfold handleAnswerException
    by_cases h : corruptionMarker emsg <;> simp [h]

/-- Witness for C9 on a marker-bearing and a marker-free exception text. -/
theorem process_message_error_invalidation_witness :
    corruptionMarker "Query failed: HNSW segment is corrupt" = true ∧
      (handleAnswerException (some 7) "Query failed: HNSW segment is corrupt").1 = none ∧
      corruptionMarker "OpenAI request timed out" = false ∧
      (handleAnswerException (some 7) "OpenAI request timed out").1 = some 7 ∧
      (handleAnswerException (some 7) "Query failed: HNSW segment is corrupt").2 = APOLOGY :=
  ⟨by decide,
    (process_message_error_invalidation (some 7) "Query failed: HNSW segment is corrupt").1
      (by decide),
    by decide,
    (process_message_error_invalidation (some 7) "OpenAI request timed out").2.1 (by decide),
    (process_message_error_invalidation (some 7) "Query failed: HNSW segment is corrupt").2.2⟩

lemma inv8_init {ι V : Type} (v : V) : Inv8 v (initSys ι V) := by
  refine ⟨?_, ?_, ?_, ?_, ?_, ?_, ?_⟩
  · intro i hi; rcases hi with h | h <;> simp [initSys] at h
  · intro w hw; simp [initSys] at hw
  · intro h; simp [initSys] at h
  · intro i h; simp [initSys] at h
  · simp [initSys]
  · intro i r h; simp [initSys] at h
  · intro h; simp [initSys] at h

lemma inv8_step {ι V : Type} [DecidableEq ι] {v : V} {s t : CacheSys ι V}
    (hs : Inv8 v s) (hstep : CacheStep (some v) s t) : Inv8 v t := by
  obtain ⟨hA, hB, hC, hD, hE, hF, hG⟩ := hs
  cases hstep with
  | fastHit i w hpc hc =>
      have hw : w = v := hB w hc
      subst hw
      refine ⟨?_, hB, hC, ?_, hE, ?_, ?_⟩
      · intro j hj
        rcases eq_or_ne j i with rfl | hne
        · simp only [Function.update_same] at hj; rcases hj with hj | hj <;> simp at hj
        · simp only [Function.update_noteq hne] at hj; exact hA j hj
      · intro j hj
        rcases eq_or_ne j i with rfl | hne
        · simp only [Function.update_same] at hj; simp at hj
        · simp only [Function.update_noteq hne] at hj; exact hD j hj
      · intro j r hj
        rcases eq_or_ne j i with rfl | hne
        · simp only [Function.update_same] at hj
          injection hj with hr
          exact ⟨hr.symm, hc⟩
        · simp only [Function.update_noteq hne] at hj; exact hF j r hj
      · intro hl
        rcases hG hl with h | ⟨j, hj⟩
        · exact Or.inl h
        · have hne : j ≠ i := by
            intro e; subst e; rw [hpc] at hj; simp at hj
          exact Or.inr ⟨j, by simp only [Function.update_noteq hne]; exact hj⟩
  | fastMiss i hpc hc =>
      refine ⟨?_, hB, hC, ?_, hE, ?_, ?_⟩
      · intro j hj
        rcases eq_or_ne j i with rfl | hne
        · simp only [Function.update_same] at hj; rcases hj with hj | hj <;> simp at hj
        · simp only [Function.update_noteq hne] at hj; exact hA j hj
      · intro j hj
        rcases eq_or_ne j i with rfl | hne
        · simp only [Function.update_same] at hj; simp at hj
        · simp only [Function.update_noteq hne] at hj; exact hD j hj
      · intro j r hj
        rcases eq_or_ne j i with rfl | hne
        · simp only [Function.update_same] at hj; simp at hj
        · simp only [Function.update_noteq hne] at hj; exact hF j r hj
      · intro hl
        rcases hG hl with h | ⟨j, hj⟩
        · exact Or.inl h
        · have hne : j ≠ i := by
            intro e; subst e; rw [hpc] at hj; simp at hj
          exact Or.inr ⟨j, by simp only [Function.update_noteq hne]; exact hj⟩
  | acquire i hpc hlock =>
      refine ⟨?_, hB, hC, ?_, hE, ?_, ?_⟩
      · intro j hj
        rcases eq_or_ne j i with rfl | hne
        · rfl
        · simp only [Function.update_noteq hne] at hj
          have h1 := hA j hj
          rw [hlock] at h1
          cases h1
      · intro j hj
        rcases eq_or_ne j i with rfl | hne
        · simp only [Function.update_same] at hj; simp at hj
        · simp only [Function.update_noteq hne] at hj; exact hD j hj
      · intro j r hj
        rcases eq_or_ne j i with rfl | hne
        · simp only [Function.update_same] at hj; simp at hj
        · simp only [Function.update_noteq hne] at hj; exact hF j r hj
      · intro hl
        rcases hG hl with h | ⟨j, hj⟩
        · exact Or.inl h
        · have hne : j ≠ i := by
            intro e; subst e; rw [hpc] at hj; simp at hj
          exact Or.inr ⟨j, by simp only [Function.update_noteq hne]; exact hj⟩
  | recheckHit i w hpc hc =>
      have hw : w = v := hB w hc
      subst hw
      refine ⟨?_, hB, hC, ?_, hE, ?_, ?_⟩
      · intro j hj
        rcases eq_or_ne j i with rfl | hne
        · simp only [Function.update_same] at hj; rcases hj with hj | hj <;> simp at hj
        · simp only [Function.update_noteq hne] at hj
          exfalso
          have h1 := hA j hj
          have h2 := hA i (Or.inl hpc)
          rw [h2] at h1
          injection h1 with h1
          exact hne h1.symm
      · intro j hj
        rcases eq_or_ne j i with rfl | hne
        · simp only [Function.update_same] at hj; simp at hj
        · simp only [Function.update_noteq hne] at hj
          exfalso
          have h1 := hA j (Or.inr hj)
          have h2 := hA i (Or.inl hpc)
          rw [h2] at h1
          injection h1 with h1
          exact hne h1.symm
      · intro j r hj
        rcases eq_or_ne j i with rfl | hne
        · simp only [Function.update_same] at hj
          injection hj with hr
          exact ⟨hr.symm, hc⟩
        · simp only [Function.update_noteq hne] at hj; exact hF j r hj
      · intro _
        exact Or.inl hc
  | beginLoad i hpc hc =>
      have hl0 : s.loads = 0 := by
        rcases Nat.lt_or_ge s.loads 1 with h | h
        · omega
        · have h1 : s.loads = 1 := Nat.le_antisymm hE h
          rcases hG h1 with hcv | ⟨j, hj⟩
          · rw [hc] at hcv; cases hcv
          · have h2 := hA j (Or.inr hj)
            have h3 := hA i (Or.inl hpc)
            rw [h3] at h2
            injection h2 with h2
            subst h2
            rw [hpc] at hj
            simp at hj
      refine ⟨?_, hB, ?_, ?_, ?_, ?_, ?_⟩
      · intro j hj
        rcases eq_or_ne j i with rfl | hne
        · exact hA j (Or.inl hpc)
        · simp only [Function.update_noteq hne] at hj; exact hA j hj
      · intro hcv
        rw [hc] at hcv
        cases hcv
      · intro j hj
        rcases eq_or_ne j i with rfl | hne
        · exact ⟨show s.loads + 1 = 1 by omega, hc⟩
        · simp only [Function.update_noteq hne] at hj
          exact absurd (hD j hj).1 (by omega)
      · show s.loads + 1 ≤ 1
        omega
      · intro j r hj
        rcases eq_or_ne j i with rfl | hne
        · simp only [Function.update_same] at hj; simp at hj
        · simp only [Function.update_noteq hne] at hj
          have h1 := (hF j r hj).2
          rw [hc] at h1
          cases h1
      · intro _
        exact Or.inr ⟨i, by simp [Function.update_same]⟩
  | endLoad i hpc =>
      obtain ⟨hl1, hcn⟩ := hD i hpc
      refine ⟨?_, ?_, ?_, ?_, hE, ?_, ?_⟩
      · intro j hj
        rcases eq_or_ne j i with rfl | hne
        · simp only [Function.update_same] at hj; rcases hj with hj | hj <;> simp at hj
        · simp only [Function.update_noteq hne] at hj
          exfalso
          have h1 := hA j hj
          have h2 := hA i (Or.inr hpc)
          rw [h2] at h1
          injection h1 with h1
          exact hne h1.symm
      · intro w hw
        injection hw with hw
        exact hw.symm
      · intro _; exact hl1
      · intro j hj
        rcases eq_or_ne j i with rfl | hne
        · simp only [Function.update_same] at hj; simp at hj
        · simp only [Function.update_noteq hne] at hj
          exfalso
          have h1 := hA j (Or.inr hj)
          have h2 := hA i (Or.inr hpc)
          rw [h2] at h1
          injection h1 with h1
          exact hne h1.symm
      · intro j r hj
        rcases eq_or_ne j i with rfl | hne
        · simp only [Function.update_same] at hj
          injection hj with hr
          exact ⟨hr.symm, rfl⟩
        · simp only [Function.update_noteq hne] at hj
          have h1 := (hF j r hj).2
          rw [hcn] at h1
          cases h1
      · intro _
        exact Or.inl rfl

lemma inv8_reachable {ι V : Type} [DecidableEq ι] {v : V} {s : CacheSys ι V}
    (h : Reachable (some v) s) : Inv8 v s := by
  induction h with
  | refl => exact inv8_init v
  | tail _ hstep ih => exact inv8_step ih hstep

/-- C8: under any interleaving of concurrent `_get_vectorstore()` calls,
when `load_vectorstore()` yields a vectorstore `v`, the load runs at most
once, it has run exactly once as soon as any call has completed, and every
completed call returned the one cached instance `v`. -/
theorem get_vectorstore_loads_at_most_once (ι V : Type) [DecidableEq ι] (v : V)
    (s : CacheSys ι V) (h : Reachable (some v) s) :
    s.loads ≤ 1
      ∧ (∀ i r, s.pc i = .finished r → r = some v)
      ∧ ((∃ i r, s.pc i = .finished r) → s.loads = 1) := by
  obtain ⟨hA, hB, hC, hD, hE, hF, hG⟩ := inv8_reachable h
  exact ⟨hE, fun i r hir => (hF i r hir).1,
    fun ⟨i, r, hir⟩ => hC (hF i r hir).2⟩

/-- Witness for C8, applying the theorem at the initial process state. -/
theorem get_vectorstore_loads_at_most_once_witness :
    (initSys Bool Unit).loads ≤ 1 :=
  (get_vectorstore_loads_at_most_once Bool Unit () (initSys Bool Unit)
    Relation.ReflTransGen.refl).1

/-- Demonstration run: two threads contending on a cold cache, thread
`false` loading under the lock while thread `true` waits, then hitting the
populated cache on its re-check — one load, both calls returning the
cached instance. -/
theorem dcl_two_thread_run :
    ∃ s : CacheSys Bool Unit, Reachable (some ()) s ∧ s.loads = 1
      ∧ s.pc false = .finished (some ()) ∧ s.pc true = .finished (some ()) := by
  refine ⟨_,
    Relation.ReflTransGen.head (CacheStep.fastMiss _ false rfl rfl)
      (Relation.ReflTransGen.head (CacheStep.fastMiss _ true rfl rfl)
        (Relation.ReflTransGen.head (CacheStep.acquire _ false rfl rfl)
          (Relation.ReflTransGen.head (CacheStep.beginLoad _ false rfl rfl)
            (Relation.ReflTransGen.head (CacheStep.endLoad _ false rfl)
              (Relation.ReflTransGen.head (CacheStep.acquire _ true rfl rfl)
                (Relation.ReflTransGen.single (CacheStep.recheckHit _ true () rfl rfl))))))),
    rfl, rfl, rfl⟩

lemma getVectorstoreCalls_none {V : Type} : ∀ n : Nat,
    getVectorstoreCalls (none : Option V) n none = (none, n) := by
  intro n
  induction n with
  | zero => rfl
  | succ n ih => simp [getVectorstoreCalls, getVectorstoreOnce, ih]

/-- C10: when `load_vectorstore()` returns `None`, the cache is never
populated and every completed `_get_vectorstore()` call returns `None`
(transition system); sequentially, each of `n` successive calls re-enters
the load path and attempts the load again (`n` loads, cache still `None`),
a single cold call loads and returns `None`, and the fast cached path (no
load) is taken exactly when a previous load returned a vectorstore. -/
theorem get_vectorstore_absent_no_caching (ι V : Type) [DecidableEq ι] :
    (∀ s : CacheSys ι V, Reachable none s →
        s.cache = none ∧ ∀ i r, s.pc i = .finished r → r = none)
      ∧ (∀ n : Nat, getVectorstoreCalls (none : Option V) n none = (none, n))
      ∧ (∀ lr : Option V, getVectorstoreOnce lr none = (lr, lr, true))
      ∧ (∀ (lr : Option V) (v : V), getVectorstoreOnce lr (some v) = (some v, some v, false)) := by
  refine ⟨?_, getVectorstoreCalls_none, fun lr => rfl, fun lr v => rfl⟩
  intro s h
  induction h with
  | refl => exact ⟨rfl, by intro i r hir; simp [initSys] at hir⟩
  | tail _ hstep ih =>
      obtain ⟨hcache, hfin⟩ := ih
      cases hstep with
      | fastHit i w hpc hc => rw [hcache] at hc; cases hc
      | fastMiss i hpc hc =>
          refine ⟨hcache, ?_⟩
          intro j r hj
          rcases eq_or_ne j i with rfl | hne
          · simp only [Function.update_same] at hj; simp at hj
          · simp only [Function.update_noteq hne] at hj; exact hfin j r hj
      | acquire i hpc hlock =>
          refine ⟨hcache, ?_⟩
          intro j r hj
          rcases eq_or_ne j i with rfl | hne
          · simp only [Function.update_same] at hj; simp at hj
          · simp only [Function.update_noteq hne] at hj; exact hfin j r hj
      | recheckHit i w hpc hc => rw [hcache] at hc; cases hc
      | beginLoad i hpc hc =>
          refine ⟨hcache, ?_⟩
          intro j r hj
          rcases eq_or_ne j i with rfl | hne
          · simp only [Function.update_same] at hj; simp at hj
          · simp only [Function.update_noteq hne] at hj; exact hfin j r hj
      | endLoad i hpc =>
          refine ⟨rfl, ?_⟩
          intro j r hj
          rcases eq_or_ne j i with rfl | hne
          · simp only [Function.update_same] at hj
            injection hj with hr
            exact hr.symm
          · simp only [Function.update_noteq hne] at hj; exact hfin j r hj

/-- Witness for C10 at the initial state and three sequential calls. -/
theorem get_vectorstore_absent_no_caching_witness :
    (initSys Bool Unit).cache = none ∧
      getVectorstoreCalls (none : Option Unit) 3 none = (none, 3) ∧
      getVectorstoreOnce (none : Option Unit) none = (none, none, true) ∧
      getVectorstoreOnce (some 5) (some 4) = (some 4, some 4, false) :=
  ⟨((get_vectorstore_absent_no_caching Bool Unit).1 (initSys Bool Unit)
      Relation.ReflTransGen.refl).1,
    (get_vectorstore_absent_no_caching Bool Unit).2.1 3,
    (get_vectorstore_absent_no_caching Bool Unit).2.2.1 none,
    (get_vectorstore_absent_no_caching Bool Nat).2.2.2 (some 5) 4⟩

end Rag
